import Mathlib

/-!
Verification of the observability layer of `my-util-rust`: a shallow
embedding of `src/error.rs` (error-report frame filtering installed by
`init_error_hook`) and `src/log.rs` (logger installation `init_log` and the
`CustomFormatter::format_event` renderer), together with proofs of the
specified properties.

Modelling conventions:
- Rust strings are Lean `String`s; where the Rust code works with UTF-8
  byte lengths and byte indices (`str::len`, `&s[0..20]`), the embedding
  computes byte counts from the character list (`utf8Len`, `takeBytes`),
  and a byte slice that would panic in Rust (cut not on a character
  boundary, or out of range) is `none`.
- The external `tracing` field formatter (`FormatFields`) is opaque: event
  fields and each span's cached `FormattedFields` enter the model as the
  already-rendered strings the Rust code receives.
- `format_event` returns `some line` for the fully written line and `none`
  when the Rust code would panic before completing the line.
- The process-wide global slots (`set_global_default`, `LogTracer::init`,
  the panics of a second install) are modelled by explicit state passing
  over `LogState`, with `InitResult.panicked msg s` recording a panic that
  leaves the global state `s` unchanged.
-/

set_option maxRecDepth 4096

namespace MyUtil

/-! ## error.rs -/

/-- A captured stack frame as consumed by the frame filter closure in
`init_error_hook`: only the optional symbol name is inspected. -/
structure Frame where
  name : Option String
deriving DecidableEq

/-- Rust `str::starts_with(prefix_str)`: the argument is a byte-string
prefix of the receiver. On whole strings this coincides with the
character-list prefix relation used here. -/
def rustStartsWith (s fl : String) : Bool := fl.data.isPrefixOf s.data

/-- The frame-filter predicate from the closure registered by
`init_error_hook` (src/error.rs lines 18-31): `filters = [package_name]`,
and a frame is retained iff some filter accepts it, where a filter accepts
a frame with symbol name `name` iff `name.starts_with(filter)`, and
accepts every frame that has no symbol name. -/
def frameFilter (package_name : String) (frame : Frame) : Bool :=
  [package_name].any fun fl =>
    match frame.name with
    | some n => rustStartsWith n fl
    | none => true

/-- `frames.retain(..)` from the closure: keep, in order, exactly the
frames accepted by `frameFilter` (Rust `Vec::retain` keeps the retained
elements in their original relative order). -/
def retainFrames (package_name : String) (frames : List Frame) : List Frame :=
  frames.filter (frameFilter package_name)

/-- The configuration assembled by `init_error_hook` (src/error.rs): the
registered filter's captured package name plus the two section toggles
passed to the `HookBuilder` (`display_location_section(false)`,
`display_env_section(false)`). -/
structure HookConfig where
  packageName : String
  displayLocationSection : Bool
  displayEnvSection : Bool
deriving DecidableEq

/-- `init_error_hook(package_name)` (src/error.rs lines 14-37): builds the
hook with the frame filter for `package_name` and both optional report
sections switched off. -/
def init_error_hook (package_name : String) : HookConfig :=
  { packageName := package_name
    displayLocationSection := false
    displayEnvSection := false }

/-- Which optional sections a rendered report contains. -/
structure RenderedSections where
  hasLocationSection : Bool
  hasEnvSection : Bool
deriving DecidableEq

/-- Modelled from the spec: the external `color_eyre` renderer includes the
"source location of report construction" section and the "process
environment" section in a rendered report exactly when the corresponding
toggle of the installed hook is on. -/
def renderedSections (h : HookConfig) : RenderedSections :=
  { hasLocationSection := h.displayLocationSection
    hasEnvSection := h.displayEnvSection }

/-! ## log.rs : data model -/

/-- `tracing::Level`, ordered by verbosity Trace>Debug>Info>Warn>Error. -/
inductive Level where
  | trace
  | debug
  | info
  | warn
  | error
deriving DecidableEq

/-- `Display` of `tracing::Level` as written by `write!(.., "{} ..", level)`. -/
def levelDisplay : Level → String
  | .trace => "TRACE"
  | .debug => "DEBUG"
  | .info => "INFO"
  | .warn => "WARN"
  | .error => "ERROR"

/-- Verbosity rank of a level (error least verbose, trace most). -/
def levelVerbosity : Level → Nat
  | .error => 1
  | .warn => 2
  | .info => 3
  | .debug => 4
  | .trace => 5

/-- Modelled from the spec: the external max-level filter installed by
`with_max_level(maxLvl)` admits an event iff its level is at or above the
threshold (i.e. no more verbose than `maxLvl`). -/
def withMaxLevelAccepts (maxLvl : Level) (evLvl : Level) : Bool :=
  levelVerbosity evLvl ≤ levelVerbosity maxLvl

/-- `LogMode` from src/log.rs. -/
inductive LogMode where
  | Original
  | Simple
  | General
  | Full
  | Custom
deriving DecidableEq

/-- One active span as seen by `format_event`: its `name()` and the cached
`FormattedFields` string stored in its extensions (rendered once by the
external field formatter when the span was entered). -/
structure Span where
  name : String
  fields : String
deriving DecidableEq

/-- One log event as seen by `format_event`: the metadata consulted
(`level()`, `target()`, `file()`, `line()`) plus the event's own fields as
rendered by the external `ctx.field_format().format_fields(..)` call. -/
structure LogEvent where
  level : Level
  target : String
  file : Option String
  line : Option Nat
  fields : String
deriving DecidableEq

/-! ## log.rs : CustomFormatter::format_event -/

/-- UTF-8 byte length of a character list: Rust `str::len`. -/
def utf8Len (cs : List Char) : Nat := (cs.map Char.utf8Size).sum

/-- Rust byte slice `&s[0..n]` over the character list of `s`: consume
whole characters while their cumulative UTF-8 size fits in `n`. The result
is `some` exactly when byte index `n` is a character boundary of the
string (including `n` = length); otherwise the Rust slice panics and the
result is `none`. -/
def takeBytes : List Char → Nat → Option (List Char)
  | _, 0 => some []
  | [], _ + 1 => none
  | c :: cs, n + 1 =>
    if c.utf8Size ≤ n + 1 then (takeBytes cs (n + 1 - c.utf8Size)).map (fun r => c :: r)
    else none

/-- Rust `str::len` on a Lean string: its UTF-8 byte count. -/
def rustLen (s : String) : Nat := utf8Len s.data

/-- Rust `str::split('/')` on the character list: split at every `'/'`,
yielding (number of slashes)+1 pieces, empty pieces included; the
iterator is never empty. -/
def splitSlash : List Char → List (List Char)
  | [] => [[]]
  | c :: cs =>
    if c = '/' then [] :: splitSlash cs
    else
      match splitSlash cs with
      | [] => [[c]]
      | r :: rs => (c :: r) :: rs

/-- `full_path.split('/').last().unwrap_or(full_path)` from `format_event`:
the final path segment (the `unwrap_or` branch is unreachable since the
split is never empty, but is kept for fidelity). -/
def lastSegment (path : String) : String :=
  String.mk (((splitSlash path.data).getLast?).getD path.data)

/-- The truncation step of `format_event` (src/log.rs lines 152-156):
`if filename.len() > 20 { &filename[0..20] } else { filename }`, with the
byte-slice panic surfaced as `none`. -/
def filenameDisplay (filename : String) : Option String :=
  if rustLen filename > 20 then (takeBytes filename.data 20).map String.mk
  else some filename

/-- The per-span text written by the loop body of `format_event`
(src/log.rs lines 162-181): the span name, then `{fields}` only when the
cached formatted-fields string is non-empty, then the `": "` separator. -/
def renderSpan (s : Span) : String :=
  s.name ++ (if s.fields.isEmpty then "" else "\x7b" ++ s.fields ++ "\x7d") ++ ": "

/-- Sequential concatenation of the texts written by a loop. -/
def joinStrs : List String → String
  | [] => ""
  | s :: rest => s ++ joinStrs rest

/-- The first writes of `format_event` (src/log.rs lines 147-159): the
`"LEVEL TARGET: "` header followed by
`"filename=NAME:LINE -> "`, where `LINE` is `metadata.line().unwrap_or(0)`
and `NAME` is the truncated final segment of
`metadata.file().unwrap_or("unknown")`; `none` when the truncation slice
panics (in Rust the header bytes are written before the panic aborts the
line, so no complete line is produced). -/
def headPart (ev : LogEvent) : Option String :=
  let line := ev.line.getD 0
  let fullPath := ev.file.getD "unknown"
  let filename := lastSegment fullPath
  match filenameDisplay filename with
  | none => none
  | some fd =>
    some (levelDisplay ev.level ++ " " ++ ev.target ++ ": " ++ "filename=" ++ fd ++ ":"
      ++ toString line ++ " -> ")

/-- `CustomFormatter::format_event` (src/log.rs lines 140-188): the full
line written for one event — header and location, then every span of the
scope from root to innermost, then the event's own rendered fields, then
the final newline of `writeln!`. An event whose scope is absent or empty
contributes no span text. -/
def format_event (ev : LogEvent) (spans : List Span) : Option String :=
  match headPart ev with
  | none => none
  | some hp => some (hp ++ joinStrs (spans.map renderSpan) ++ ev.fields ++ "\n")

/-! ## log.rs : init_log and the global slots -/

/-- `log::LevelFilter` of the legacy `log` facade. -/
inductive LogLevelFilter where
  | off
  | filterError
  | filterWarn
  | filterInfo
  | filterDebug
  | filterTrace
deriving DecidableEq

/-- `tracing_log::AsLog` on levels: the equivalent level mapping
Trace↔Trace, Debug↔Debug, Info↔Info, Warn↔Warn, Error↔Error. -/
def asLog : Level → LogLevelFilter
  | .trace => .filterTrace
  | .debug => .filterDebug
  | .info => .filterInfo
  | .warn => .filterWarn
  | .error => .filterError

/-- The two process-wide write-once slots: the global default subscriber
(the installed pipeline, recorded as its mode and max level) and the
legacy-`log` bridge (`LogTracer`), recorded with its max-level filter. -/
structure LogState where
  subscriber : Option (LogMode × Level)
  bridge : Option LogLevelFilter
deriving DecidableEq

/-- The state at process start: both global slots empty. -/
def initialLogState : LogState := { subscriber := none, bridge := none }

/-- Outcome of an installation step: success with the new global state, or
a panic (`expect` failure) that leaves the global state unchanged. -/
inductive InitResult where
  | ok (s : LogState)
  | panicked (msg : String) (s : LogState)
deriving DecidableEq

/-- `tracing::subscriber::set_global_default(subscriber).expect(..)` as
called by `init_log_simple` / `init_log_general` / `init_log_full` /
`init_log_custom`: fails fatally when the global subscriber slot is
already occupied, and never arms the legacy bridge. -/
def set_global_default (mode : LogMode) (lvl : Level) (s : LogState) : InitResult :=
  match s.subscriber with
  | some _ => .panicked "Could not set global default logger" s
  | none => .ok { s with subscriber := some (mode, lvl) }

/-- `tracing_log::LogTracer::builder().with_max_level(f).init().expect(..)`
(src/log.rs lines 28-31): arms the legacy-`log` bridge with max-level
filter `f`, failing fatally when a logger is already set. -/
def logTracerInit (f : LogLevelFilter) (s : LogState) : InitResult :=
  match s.bridge with
  | some _ => .panicked "Failed to set standard library logger" s
  | none => .ok { s with bridge := some f }

/-- `init_log_original` (src/log.rs lines 42-49):
`tracing_subscriber::fmt().with_max_level(lvl).compact().init()`. Per the
doc comment at src/log.rs lines 34-40, `fmt().init()` already includes
`tracing_log::LogTracer::init()` internally, so it occupies both slots at
once (the internal `LogTracer::init()` uses the default max-level filter,
which admits every record); it panics if either slot is taken. -/
def init_log_original (lvl : Level) (s : LogState) : InitResult :=
  match s.subscriber, s.bridge with
  | some _, _ => .panicked "Unable to install global subscriber" s
  | none, some _ => .panicked "Unable to install global subscriber" s
  | none, none =>
    .ok { subscriber := some (LogMode.Original, lvl), bridge := some LogLevelFilter.filterTrace }

/-- `init_log(log_mode, log_level)` (src/log.rs lines 15-32): `Original`
installs via `init_log_original` and returns early; every other mode
installs its subscriber via `set_global_default` and then arms the
`LogTracer` bridge with
`with_max_level(LevelFilter::current().as_log())`, where
`LevelFilter::current()` is the just-installed subscriber's max level. -/
def init_log (mode : LogMode) (lvl : Level) (s : LogState) : InitResult :=
  match mode with
  | .Original => init_log_original lvl s
  | .Simple | .General | .Full | .Custom =>
    match set_global_default mode lvl s with
    | .panicked msg s1 => .panicked msg s1
    | .ok s1 => logTracerInit (asLog lvl) s1

/-- Spec-side description of the armed bridge filter: for the four modes
that reach the explicit `LogTracer::builder()` call, the equivalent
mapping of the requested level; for `Original`, the default (admit-all)
filter of the internal `LogTracer::init()`. -/
def specBridgeLevel (mode : LogMode) (lvl : Level) : LogLevelFilter :=
  match mode with
  | .Original => .filterTrace
  | _ => asLog lvl

/-! ## Spec-side definitions and concrete inputs for the claims -/

/-- Follows the claim wording of C2 (character semantics): the displayed
name is exactly `min(L, 20)` CHARACTERS of the final path segment, where
`L` is the segment's length in characters. -/
def specCharTruncName (ev : LogEvent) : List Char :=
  let seg := (lastSegment (ev.file.getD "unknown")).data
  seg.take (min seg.length 20)

/-- A string of `n` copies of U+03B1 (GREEK SMALL LETTER ALPHA, 2 UTF-8
bytes each). -/
def alphaStr (n : Nat) : String := String.mk (List.replicate n (Char.ofNat 945))

/-- Event whose filename is 11 two-byte characters (22 bytes): byte 20 is
a character boundary, but character count differs from byte count. -/
def evC2 : LogEvent :=
  { level := .info, target := "t", file := some (alphaStr 11), line := some 1, fields := "" }

/-- The event of end-to-end scenario 1. -/
def evC3 : LogEvent :=
  { level := .info
    target := "pkg.mod"
    file := some "/a/b/very_long_filename_exceeding.rs"
    line := some 42
    fields := "k=1" }

/-- Count of `{` characters in a string. -/
def countLBrace (s : String) : Nat := s.data.count (Char.ofNat 123)

/-- Event used for the span-rendering claim. -/
def evC4 : LogEvent :=
  { level := .debug, target := "tgt", file := some "a.rs", line := some 7, fields := "m=0" }

/-- A span whose cached formatted-fields string is non-empty and itself
contains a `{` character. -/
def spanBrace : Span := { name := "s", fields := "\x7b" }

/-- Spans with ordinary brace-free non-empty fields. -/
def spanA : Span := { name := "sp1", fields := "a=1" }

/-- Second ordinary span. -/
def spanB : Span := { name := "sp2", fields := "b=2" }

/-- Event used for determinism and C10 witnesses. -/
def evC9 : LogEvent :=
  { level := .warn, target := "w", file := some "w.rs", line := none, fields := "x=9" }

/-- Event whose filename is 19 ASCII bytes followed by a two-byte
character (21 bytes total): byte 20 falls inside the final character, so
the Rust slice `&filename[0..20]` panics. -/
def evC10 : LogEvent :=
  { level := .info
    target := "t"
    file := some (String.mk (List.replicate 19 'b' ++ [Char.ofNat 945]))
    line := some 3
    fields := "" }

/-! ## Helper lemmas -/

/-- `List.isPrefixOf` on characters agrees with the existence of a suffix. -/
theorem isPrefixOf_iff_chars (l1 l2 : List Char) :
    l1.isPrefixOf l2 = true ↔ ∃ t, l2 = l1 ++ t := by
  induction l1 generalizing l2 with
  | nil =>
    simp [List.isPrefixOf]
  | cons a as ih =>
    cases l2 with
    | nil => simp [List.isPrefixOf]
    | cons b bs =>
      simp only [List.isPrefixOf, Bool.and_eq_true, beq_iff_eq, ih, List.cons_append,
        List.cons.injEq]
      constructor
      · rintro ⟨hab, t, ht⟩
        exact ⟨t, hab.symm, ht⟩
      · rintro ⟨t, hab, ht⟩
        exact ⟨hab.symm, t, ht⟩

/-- Every character list is a prefix of itself. -/
theorem isPrefixOf_self_chars (l : List Char) : l.isPrefixOf l = true := by
  rw [isPrefixOf_iff_chars]
  exact ⟨[], by simp⟩

/-- A successful byte slice returns a prefix of the string consisting of
exactly the requested number of bytes. -/
theorem takeBytes_spec (cs : List Char) (n : Nat) (r : List Char)
    (h : takeBytes cs n = some r) : utf8Len r = n ∧ r.isPrefixOf cs = true := by
  induction cs generalizing n r with
  | nil =>
    cases n with
    | zero =>
      simp only [takeBytes, Option.some.injEq] at h
      subst h
      exact ⟨rfl, rfl⟩
    | succ m => simp [takeBytes] at h
  | cons c cs ih =>
    cases n with
    | zero =>
      simp only [takeBytes, Option.some.injEq] at h
      subst h
      exact ⟨rfl, rfl⟩
    | succ m =>
      simp only [takeBytes] at h
      by_cases hle : c.utf8Size ≤ m + 1
      · rw [if_pos hle] at h
        cases htb : takeBytes cs (m + 1 - c.utf8Size) with
        | none => rw [htb] at h; simp at h
        | some r0 =>
          rw [htb] at h
          simp only [Option.map_some', Option.some.injEq] at h
          subst h
          obtain ⟨h1, h2⟩ := ih (m + 1 - c.utf8Size) r0 htb
          constructor
          · simp only [utf8Len, List.map_cons, List.sum_cons] at h1 ⊢
            omega
          · simp [List.isPrefixOf, h2]
      · rw [if_neg hle] at h
        simp at h

/-- If some character-prefix of the string occupies exactly `n` bytes,
the byte slice at `n` succeeds. -/
theorem takeBytes_isSome_of_take (cs : List Char) (k n : Nat)
    (h : utf8Len (cs.take k) = n) : (takeBytes cs n).isSome = true := by
  induction cs generalizing k n with
  | nil =>
    simp only [List.take_nil] at h
    have hn : n = 0 := by simpa [utf8Len] using h.symm
    subst hn
    rfl
  | cons c cs ih =>
    cases k with
    | zero =>
      have hn : n = 0 := by simpa [utf8Len] using h.symm
      subst hn
      rfl
    | succ k =>
      simp only [List.take_succ_cons, utf8Len, List.map_cons, List.sum_cons] at h
      have hpos : 0 < c.utf8Size := Char.utf8Size_pos c
      cases n with
      | zero => omega
      | succ m =>
        have hle : c.utf8Size ≤ m + 1 := by omega
        simp only [takeBytes, if_pos hle]
        have hrec : utf8Len (cs.take k) = m + 1 - c.utf8Size := by
          simp only [utf8Len] at h ⊢
          omega
        have := ih k (m + 1 - c.utf8Size) hrec
        cases htb : takeBytes cs (m + 1 - c.utf8Size) with
        | none => rw [htb] at this; simp at this
        | some r0 => simp

/-- The byte slice at `n` succeeds exactly when byte index `n` is a
character boundary (some whole-character prefix occupies `n` bytes). -/
theorem takeBytes_isSome_iff (cs : List Char) (n : Nat) :
    (takeBytes cs n).isSome = true ↔ ∃ k, utf8Len (cs.take k) = n := by
  constructor
  · intro h
    cases htb : takeBytes cs n with
    | none => rw [htb] at h; simp at h
    | some r =>
      obtain ⟨h1, h2⟩ := takeBytes_spec cs n r htb
      obtain ⟨t, ht⟩ := (isPrefixOf_iff_chars r cs).mp h2
      refine ⟨r.length, ?_⟩
      rw [ht, List.take_left]
      exact h1
  · rintro ⟨k, hk⟩
    exact takeBytes_isSome_of_take cs k n hk

/-- `countLBrace` distributes over string concatenation. -/
theorem countLBrace_append (a b : String) :
    countLBrace (a ++ b) = countLBrace a + countLBrace b := by
  simp [countLBrace, String.data_append, List.count_append]

/-- `countLBrace` over the concatenation of a list of strings. -/
theorem countLBrace_joinStrs (l : List String) :
    countLBrace (joinStrs l) = (l.map countLBrace).sum := by
  induction l with
  | nil => rfl
  | cons s rest ih => simp [joinStrs, countLBrace_append, ih]

/-- The rendered text of a non-empty-fields span with brace-free name and
fields contains exactly one `{` character. -/
theorem countLBrace_renderSpan (s : Span) (h1 : countLBrace s.name = 0)
    (h2 : countLBrace s.fields = 0) (h3 : s.fields.isEmpty = false) :
    countLBrace (renderSpan s) = 1 := by
  simp only [renderSpan, h3, Bool.false_eq_true, if_false, countLBrace_append, h1, h2]
  decide

/-- The concatenated span renderings of brace-free non-empty-fields spans
contain exactly one `{` per span. -/
theorem countLBrace_renderSpans (spans : List Span)
    (h : ∀ s, s ∈ spans →
      countLBrace s.name = 0 ∧ countLBrace s.fields = 0 ∧ s.fields.isEmpty = false) :
    countLBrace (joinStrs (spans.map renderSpan)) = spans.length := by
  induction spans with
  | nil => rfl
  | cons s rest ih =>
    obtain ⟨h1, h2, h3⟩ := h s (List.mem_cons_self s rest)
    simp only [List.map_cons, joinStrs, countLBrace_append, List.length_cons,
      countLBrace_renderSpan s h1 h2 h3,
      ih (fun t ht => h t (List.mem_cons_of_mem s ht))]
    omega

/-- Installation from the clean start state: it succeeds, fills the
subscriber slot with the selected pipeline, and arms the bridge with the
filter described by `specBridgeLevel`. -/
theorem init_log_fresh (mode : LogMode) (lvl : Level) :
    init_log mode lvl initialLogState =
      .ok { subscriber := some (mode, lvl), bridge := some (specBridgeLevel mode lvl) } := by
  cases mode <;> rfl

/-! ## Claim theorems -/

/-- Claim C1: for every stack frame `f` and installed package name `p`,
the frame filter registered by `init_error_hook(p)` retains `f` iff `f`
has no symbol name or `f`'s symbol name starts with `p`; for `p = ""`
every frame is retained. -/
theorem frameFilter_correct (p : String) (f : Frame) :
    (frameFilter p f = true ↔
      f.name = none ∨ ∃ n, f.name = some n ∧ ∃ t, n.data = p.data ++ t)
    ∧ frameFilter "" f = true := by
  constructor
  · cases hn : f.name with
    | none => simp [frameFilter, hn]
    | some n =>
      simp only [frameFilter, hn, List.any_cons, List.any_nil, Bool.or_false,
        rustStartsWith, isPrefixOf_iff_chars, Option.some.injEq]
      constructor
      · intro ht
        exact Or.inr ⟨n, rfl, ht⟩
      · rintro (hc | ⟨m, hm, t, ht⟩)
        · exact absurd hc (by simp)
        · exact ⟨t, hm ▸ ht⟩
  · cases hn : f.name with
    | none => simp [frameFilter, hn]
    | some n =>
      simp only [frameFilter, hn, List.any_cons, List.any_nil, Bool.or_false,
        rustStartsWith]
      rw [isPrefixOf_iff_chars]
      exact ⟨n.data, rfl⟩

/-- Claim C7: the installed frame filter keeps retained frames in their
original relative order: on the captured list
`["myutil::a", "std::b", "myutil::c"]` with package name `"myutil"` it
yields exactly `["myutil::a", "myutil::c"]`, and in general the retained
list is a subsequence of the input. -/
theorem retainFrames_order :
    (retainFrames "myutil"
        [⟨some "myutil::a"⟩, ⟨some "std::b"⟩, ⟨some "myutil::c"⟩]
      = [⟨some "myutil::a"⟩, ⟨some "myutil::c"⟩])
    ∧ ∀ (p : String) (fs : List Frame), List.Sublist (retainFrames p fs) fs := by
  constructor
  · decide
  · intro p fs
    exact List.filter_sublist fs

/-- Claim C8: `init_error_hook` switches both optional report sections
off, whatever the package name: the hook's two toggles are `false` and
the rendered report therefore contains neither the source-location
section nor the environment section. -/
theorem hook_sections_off (p : String) :
    (init_error_hook p).displayLocationSection = false
    ∧ (init_error_hook p).displayEnvSection = false
    ∧ renderedSections (init_error_hook p) = ⟨false, false⟩ :=
  ⟨rfl, rfl, rfl⟩

/-- Claim C9: the Custom-mode event formatter is deterministic — on
identical event and span-chain inputs it produces byte-identical output. -/
theorem format_event_deterministic (e1 e2 : LogEvent) (s1 s2 : List Span)
    (he : e1 = e2) (hs : s1 = s2) : format_event e1 s1 = format_event e2 s2 := by
  rw [he, hs]

/-- Witness for C9 at a concrete event and span chain. -/
theorem format_event_deterministic_witness :
    format_event evC9 [spanA] = format_event evC9 [spanA] :=
  format_event_deterministic evC9 evC9 [spanA] [spanA] rfl rfl

/-- Claim C5: for every mode, `init_log` registers the selected pipeline
as the process-wide active logger and arms the legacy-`log` bridge; for
the non-Original modes the bridge filter is the equivalent mapping
`asLog` of the requested level, and for Original it is the admit-all
filter of the internal `LogTracer::init()`. -/
theorem init_log_registers_and_bridges (mode : LogMode) (lvl : Level) :
    ∃ s : LogState, init_log mode lvl initialLogState = .ok s
      ∧ s.subscriber = some (mode, lvl)
      ∧ s.bridge = some (specBridgeLevel mode lvl) :=
  ⟨_, init_log_fresh mode lvl, rfl, rfl⟩

/-- Claim C6: after any successful install, a second install with any
mode panics with a configuration error and leaves the global state — and
hence the first pipeline's behaviour — unchanged. -/
theorem init_log_second_install_fails (m1 m2 : LogMode) (l1 l2 : Level) (s1 : LogState)
    (h : init_log m1 l1 initialLogState = .ok s1) :
    ∃ msg : String, init_log m2 l2 s1 = .panicked msg s1 := by
  rw [init_log_fresh m1 l1] at h
  injection h with h1
  subst h1
  cases m2 <;> exact ⟨_, rfl⟩

/-- Witness for C6: install Custom at Info, then attempt Simple at Debug;
the second call panics and the state still holds the first pipeline. -/
theorem init_log_second_install_fails_witness :
    init_log .Custom .info initialLogState =
      .ok { subscriber := some (.Custom, .info), bridge := some (asLog .info) }
    ∧ ∃ msg : String,
        init_log .Simple .debug
            { subscriber := some (.Custom, .info), bridge := some (asLog .info) }
          = .panicked msg
              { subscriber := some (.Custom, .info), bridge := some (asLog .info) } :=
  ⟨rfl, init_log_second_install_fails .Custom .Simple .info .debug _ rfl⟩

/-- Claim C2 counterexample: for the 11-character, 22-byte filename of
`evC2`, the claim (character semantics) predicts `min(11, 20) = 11`
characters in the name segment, but the code cuts at byte 20 and emits
only 10 characters. -/
theorem location_segment_chars_cex :
    specCharTruncName evC2 = (alphaStr 11).data
    ∧ format_event evC2 [] ≠
        some ("INFO t: filename=" ++ alphaStr 11 ++ ":1 -> " ++ "\n")
    ∧ format_event evC2 [] =
        some ("INFO t: filename=" ++ alphaStr 10 ++ ":1 -> " ++ "\n") :=
  ⟨by decide, by decide, by decide⟩

/-- Claim C2 (amended): the location segment emitted after level and
target is `filename=NAME:LINE -> `, where `NAME` is the final path
segment truncated to at most 20 UTF-8 BYTES — exactly `min(L, 20)` bytes
of a segment of `L` bytes, a plain prefix with no ellipsis — `LINE` is
the line number or 0 when unknown, and the path is the literal `unknown`
when no file is known (its final segment then being `unknown`). -/
theorem location_segment_bytes (ev : LogEvent) (spans : List Span) (out : String)
    (hout : format_event ev spans = some out) :
    ∃ hp fd : String,
      headPart ev = some hp
      ∧ filenameDisplay (lastSegment (ev.file.getD "unknown")) = some fd
      ∧ rustLen fd = min (rustLen (lastSegment (ev.file.getD "unknown"))) 20
      ∧ fd.data.isPrefixOf (lastSegment (ev.file.getD "unknown")).data = true
      ∧ hp = levelDisplay ev.level ++ " " ++ ev.target ++ ": " ++ "filename=" ++ fd ++ ":"
          ++ toString (ev.line.getD 0) ++ " -> "
      ∧ out = hp ++ joinStrs (spans.map renderSpan) ++ ev.fields ++ "\n" := by
  unfold format_event at hout
  cases hhp : headPart ev with
  | none => rw [hhp] at hout; exact absurd hout (by simp)
  | some hp =>
    rw [hhp] at hout
    simp only [Option.some.injEq] at hout
    subst hout
    simp only [headPart] at hhp
    cases hfd : filenameDisplay (lastSegment (ev.file.getD "unknown")) with
    | none => rw [hfd] at hhp; exact absurd hhp (by simp)
    | some fd =>
      rw [hfd] at hhp
      simp only [Option.some.injEq] at hhp
      refine ⟨hp, fd, rfl, rfl, ?_, ?_, hhp.symm, rfl⟩
      · simp only [filenameDisplay] at hfd
        by_cases hlen : rustLen (lastSegment (ev.file.getD "unknown")) > 20
        · rw [if_pos hlen] at hfd
          cases htb : takeBytes (lastSegment (ev.file.getD "unknown")).data 20 with
          | none => rw [htb] at hfd; exact absurd hfd (by simp)
          | some r =>
            rw [htb] at hfd
            simp only [Option.map_some', Option.some.injEq] at hfd
            obtain ⟨hl, _⟩ := takeBytes_spec _ _ _ htb
            subst hfd
            have hmin : min (rustLen (lastSegment (ev.file.getD "unknown"))) 20 = 20 := by
              omega
            rw [hmin]
            exact hl
        · rw [if_neg hlen] at hfd
          simp only [Option.some.injEq] at hfd
          subst hfd
          omega
      · simp only [filenameDisplay] at hfd
        by_cases hlen : rustLen (lastSegment (ev.file.getD "unknown")) > 20
        · rw [if_pos hlen] at hfd
          cases htb : takeBytes (lastSegment (ev.file.getD "unknown")).data 20 with
          | none => rw [htb] at hfd; exact absurd hfd (by simp)
          | some r =>
            rw [htb] at hfd
            simp only [Option.map_some', Option.some.injEq] at hfd
            obtain ⟨_, hpref⟩ := takeBytes_spec _ _ _ htb
            subst hfd
            exact hpref
        · rw [if_neg hlen] at hfd
          simp only [Option.some.injEq] at hfd
          subst hfd
          exact isPrefixOf_self_chars _

/-- Witness for C2 (amended) at the concrete event `evC9`. -/
theorem location_segment_bytes_witness :
    ∃ hp fd : String,
      headPart evC9 = some hp
      ∧ filenameDisplay (lastSegment (evC9.file.getD "unknown")) = some fd
      ∧ rustLen fd = min (rustLen (lastSegment (evC9.file.getD "unknown"))) 20
      ∧ fd.data.isPrefixOf (lastSegment (evC9.file.getD "unknown")).data = true
      ∧ hp = levelDisplay evC9.level ++ " " ++ evC9.target ++ ": " ++ "filename=" ++ fd ++ ":"
          ++ toString (evC9.line.getD 0) ++ " -> "
      ∧ "WARN w: filename=w.rs:0 -> x=9\n"
          = hp ++ joinStrs (([] : List Span).map renderSpan) ++ evC9.fields ++ "\n" :=
  location_segment_bytes evC9 [] "WARN w: filename=w.rs:0 -> x=9\n" (by decide)

/-- Claim C3 counterexample: the expected line of the spec's scenario 1
carries a 22-character filename cut `very_long_filename_exc`, but the
code cuts the filename at 20 bytes. -/
theorem scenario1_cex :
    format_event evC3 [] ≠
      some "INFO pkg.mod: filename=very_long_filename_exc:42 -> k=1\n" := by decide

/-- Claim C3 (amended): after install(Custom, Info) the Info event of
scenario 1 passes the max-level threshold, and the emitted line is
exactly `INFO pkg.mod: filename=very_long_filename_e:42 -> k=1` plus a
single newline — the filename cut keeps 20 bytes, not 22. -/
theorem scenario1_amended :
    withMaxLevelAccepts Level.info evC3.level = true
    ∧ format_event evC3 [] =
        some "INFO pkg.mod: filename=very_long_filename_e:42 -> k=1\n" :=
  ⟨rfl, by decide⟩

/-- Claim C4 counterexample: a single span whose non-empty cached
formatted-fields string itself contains a brace yields two `{`
characters in the output line, not `N = 1`. -/
theorem span_rendering_cex :
    (format_event evC4 [spanBrace]).map countLBrace ≠ some [spanBrace].length
    ∧ (format_event evC4 [spanBrace]).map countLBrace = some 2
    ∧ spanBrace.fields.isEmpty = false :=
  ⟨by decide, by decide, by decide⟩

/-- Claim C4 (amended): the spans are rendered from root to innermost,
each as its name, then `{fields}` exactly when its cached
formatted-fields string is non-empty (a span with empty fields
contributes only its name and `: `), and an event with no active spans
contributes no span text at all; provided the rest of the line and the
span names and fields contain no `{` character themselves, the output
contains exactly `N` occurrences of `{` for `N` spans with non-empty
fields. -/
theorem span_rendering (ev : LogEvent) (spans : List Span) (hp out : String)
    (hhead : headPart ev = some hp)
    (hout : format_event ev spans = some out) :
    out = hp ++ joinStrs (spans.map renderSpan) ++ ev.fields ++ "\n"
    ∧ (∀ s, s ∈ spans → s.fields.isEmpty = false →
        renderSpan s = s.name ++ "\x7b" ++ s.fields ++ "\x7d" ++ ": ")
    ∧ (∀ s, s ∈ spans → s.fields.isEmpty = true → renderSpan s = s.name ++ ": ")
    ∧ (spans = [] → out = hp ++ ev.fields ++ "\n")
    ∧ (countLBrace hp = 0 → countLBrace ev.fields = 0 →
        (∀ s, s ∈ spans →
          countLBrace s.name = 0 ∧ countLBrace s.fields = 0 ∧ s.fields.isEmpty = false) →
        countLBrace out = spans.length) := by
  have hstruct : out = hp ++ joinStrs (spans.map renderSpan) ++ ev.fields ++ "\n" := by
    unfold format_event at hout
    rw [hhead] at hout
    simp only [Option.some.injEq] at hout
    exact hout.symm
  refine ⟨hstruct, ?_, ?_, ?_, ?_⟩
  · intro s _ hne
    simp [renderSpan, hne, String.append_assoc]
  · intro s _ he
    simp [renderSpan, he, String.empty_append]
  · intro hsp
    subst hsp
    simpa [joinStrs, String.empty_append] using hstruct
  · intro h0 h1 hall
    rw [hstruct]
    have hnl : countLBrace "\n" = 0 := by decide
    simp only [countLBrace_append, h0, h1, hnl, countLBrace_renderSpans spans hall]
    omega

/-- Witness for C4 (amended) at a concrete event with two spans. -/
theorem span_rendering_witness :
    ("DEBUG tgt: filename=a.rs:7 -> sp1\x7ba=1\x7d: sp2\x7bb=2\x7d: m=0\n" : String)
        = "DEBUG tgt: filename=a.rs:7 -> "
          ++ joinStrs ([spanA, spanB].map renderSpan) ++ evC4.fields ++ "\n"
    ∧ (∀ s, s ∈ [spanA, spanB] → s.fields.isEmpty = false →
        renderSpan s = s.name ++ "\x7b" ++ s.fields ++ "\x7d" ++ ": ")
    ∧ (∀ s, s ∈ [spanA, spanB] → s.fields.isEmpty = true → renderSpan s = s.name ++ ": ")
    ∧ ([spanA, spanB] = ([] : List Span) →
        "DEBUG tgt: filename=a.rs:7 -> sp1\x7ba=1\x7d: sp2\x7bb=2\x7d: m=0\n"
          = "DEBUG tgt: filename=a.rs:7 -> " ++ evC4.fields ++ "\n")
    ∧ (countLBrace "DEBUG tgt: filename=a.rs:7 -> " = 0 → countLBrace evC4.fields = 0 →
        (∀ s, s ∈ [spanA, spanB] →
          countLBrace s.name = 0 ∧ countLBrace s.fields = 0 ∧ s.fields.isEmpty = false) →
        countLBrace "DEBUG tgt: filename=a.rs:7 -> sp1\x7ba=1\x7d: sp2\x7bb=2\x7d: m=0\n"
          = ([spanA, spanB] : List Span).length) :=
  span_rendering evC4 [spanA, spanB] "DEBUG tgt: filename=a.rs:7 -> "
    "DEBUG tgt: filename=a.rs:7 -> sp1\x7ba=1\x7d: sp2\x7bb=2\x7d: m=0\n"
    (by decide) (by decide)

/-- Claim C10: the Custom-mode truncation measures bytes and slices at
byte index 20, so for a final path segment longer than 20 bytes the
formatter completes no line exactly when byte 20 is not a character
boundary of the segment (the Rust slice panics there), and whenever the
truncation does succeed it returns precisely the 20-byte prefix. -/
theorem byte_truncation_boundary (ev : LogEvent) (spans : List Span)
    (hlong : rustLen (lastSegment (ev.file.getD "unknown")) > 20) :
    (format_event ev spans = none ↔
      ¬ ∃ k, utf8Len ((lastSegment (ev.file.getD "unknown")).data.take k) = 20)
    ∧ ∀ fd, filenameDisplay (lastSegment (ev.file.getD "unknown")) = some fd →
        rustLen fd = 20
        ∧ fd.data.isPrefixOf (lastSegment (ev.file.getD "unknown")).data = true := by
  constructor
  · have h1 : format_event ev spans = none ↔ headPart ev = none := by
      unfold format_event
      cases headPart ev <;> simp
    have h2 : headPart ev = none ↔
        filenameDisplay (lastSegment (ev.file.getD "unknown")) = none := by
      simp only [headPart]
      cases filenameDisplay (lastSegment (ev.file.getD "unknown")) <;> simp
    have h3 : filenameDisplay (lastSegment (ev.file.getD "unknown")) = none ↔
        takeBytes (lastSegment (ev.file.getD "unknown")).data 20 = none := by
      simp only [filenameDisplay, if_pos hlong]
      cases takeBytes (lastSegment (ev.file.getD "unknown")).data 20 <;> simp
    rw [h1, h2, h3, ← takeBytes_isSome_iff]
    cases takeBytes (lastSegment (ev.file.getD "unknown")).data 20 <;> simp
  · intro fd hfd
    simp only [filenameDisplay, if_pos hlong] at hfd
    cases htb : takeBytes (lastSegment (ev.file.getD "unknown")).data 20 with
    | none => rw [htb] at hfd; exact absurd hfd (by simp)
    | some r =>
      rw [htb] at hfd
      simp only [Option.map_some', Option.some.injEq] at hfd
      obtain ⟨hl, hpref⟩ := takeBytes_spec _ _ _ htb
      subst hfd
      exact ⟨hl, hpref⟩

/-- Witness for C10: a filename of 19 one-byte characters followed by a
two-byte character (21 bytes) has no character boundary at byte 20, so
formatting produces no line. -/
theorem byte_truncation_boundary_witness :
    (format_event evC10 [] = none ↔
      ¬ ∃ k, utf8Len ((lastSegment (evC10.file.getD "unknown")).data.take k) = 20)
    ∧ ∀ fd, filenameDisplay (lastSegment (evC10.file.getD "unknown")) = some fd →
        rustLen fd = 20
        ∧ fd.data.isPrefixOf (lastSegment (evC10.file.getD "unknown")).data = true :=
  byte_truncation_boundary evC10 [] (by decide)

end MyUtil
